import Mathlib

/-!
# Temple-Reservation: the reservation-intake pipeline of `api.js`

A shallow embedding of `sanitizeInput`, `convertTo24HourFormat`, the two
`/api/reservations` handlers and the startup sequence of `api.js`, followed by
theorems about them.

JavaScript strings are embedded as Lean strings and processed through their
character lists.  The only characters the code inspects are the ASCII
characters `<`, `>`, space, `:`, the decimal digits and the letters of
`am`/`pm`; every other character is treated uniformly.
-/

namespace TempleReservation

/-! ## JavaScript values and errors -/

/-- A value found in a field of the parsed JSON request body (`req.body.x`).
`undefined` is an absent field.  `number` carries an integer-valued number: the
code only ever asks whether a number is zero.  `object` stands for any array or
object, which is always truthy and has no callable `replace` member. -/
inductive JsValue where
  | undefined
  | null
  | bool (b : Bool)
  | number (n : Int)
  | str (s : String)
  | object
  deriving DecidableEq

/-- Errors raised by the JavaScript runtime. Calling a member that is not a
function, or reading a member of `undefined`, raises a `TypeError`. -/
inductive JsError where
  | typeError
  deriving DecidableEq

/-- JavaScript truthiness (`ToBoolean`): `undefined`, `null`, `false`, `0` and
the empty string are falsy, everything else is truthy. -/
def JsValue.truthy : JsValue → Bool
  | .undefined => false
  | .null => false
  | .bool b => b
  | .number n => n != 0
  | .str s => !s.data.isEmpty
  | .object => true

/-! ## `sanitizeInput` : `data ? data.replace(/<[^>]+>/g, '') : ''` -/

/-- Index of the first `>` in a list of characters, if there is one. -/
def closeIdx : List Char → Option Nat
  | [] => none
  | c :: cs => if c = '>' then some 0 else (closeIdx cs).map (· + 1)

/-- One attempt of the regular expression `<[^>]+>` at the head of the input:
the length of the match, if it matches there.  The head must be `<`, the next
character must exist and differ from `>`, and the greedy run `[^>]+` extends to
the first `>` after it, which must exist (a run that reaches the end of the
input fails, and so does every shorter run, whose next character is not `>`). -/
def tagMatchLen : List Char → Option Nat
  | [] => none
  | c :: cs =>
    if c = '<' then
      match cs with
      | [] => none
      | d :: ds => if d = '>' then none else (closeIdx ds).map (· + 3)
    else none

/-- The global replace `replace(/<[^>]+>/g, '')` as a single left-to-right
scan.  `skip` is the number of characters still to drop from the match found
last (the scan resumes at the end of that match); with nothing to drop the
expression is tried at the current position, and the character is kept when it
does not match there. -/
def replaceTagsFrom : Nat → List Char → List Char
  | _, [] => []
  | k + 1, _ :: cs => replaceTagsFrom k cs
  | 0, c :: cs =>
    match tagMatchLen (c :: cs) with
    | some n => replaceTagsFrom (n - 1) cs
    | none => c :: replaceTagsFrom 0 cs

/-- The method call `data.replace(/<[^>]+>/g, '')` on a string. -/
def replaceTags (s : String) : String :=
  ⟨replaceTagsFrom 0 s.data⟩

/-- The function `sanitizeInput(data)` of `api.js`.  A falsy argument yields the
empty string.  A truthy string has its tags removed.  Any other truthy value
has no `replace` method, so the call raises a `TypeError`. -/
def sanitizeInput (data : JsValue) : Except JsError String :=
  if data.truthy then
    match data with
    | .str s => .ok (replaceTags s)
    | _ => .error .typeError
  else .ok ""

/-! ## `convertTo24HourFormat` -/

/-- The method call `str.split(sep)` for a one-character separator: the
segments between consecutive separators, in order.  A string without the
separator (the empty string included) yields the string itself as the only
segment. -/
def splitChars (sep : Char) : List Char → List (List Char)
  | [] => [[]]
  | c :: cs =>
    if c = sep then [] :: splitChars sep cs
    else
      match splitChars sep cs with
      | [] => [[c]]
      | seg :: rest => (c :: seg) :: rest

/-- A JavaScript number as far as it is modelled: `nat n` is the non-negative
integer `n`, represented exactly.  `other` is any number value outside that
fragment (`NaN`, a fraction, a negative number, an infinity, or an integer not
written as at most fifteen decimal digits); how it compares and prints is not
modelled. -/
inductive JsNumber where
  | nat (n : Nat)
  | other
  deriving DecidableEq

/-- The value of a decimal digit character. -/
def digitValue (c : Char) : Option Nat :=
  if '0' ≤ c ∧ c ≤ '9' then some (c.toNat - 48) else none

/-- The value of a run of decimal digits, most significant first. -/
def decimalValue (text : List Char) : Option Nat :=
  text.foldlM (fun acc c => (digitValue c).map (fun d => 10 * acc + d)) 0

/-- The conversion `Number(text)` of a string: the empty string is `0`, a run of
at most fifteen decimal digits (leading zeros allowed) is its decimal value,
which a double represents exactly. Every other string is outside the modelled
fragment. -/
def toNumber (text : List Char) : JsNumber :=
  if text = [] then .nat 0
  else if text.length ≤ 15 then
    match decimalValue text with
    | some n => .nat n
    | none => .other
  else .other

/-- The method call `text.padStart(2, '0')`. -/
def padStart2 (text : List Char) : List Char :=
  List.replicate (2 - text.length) '0' ++ text

/-- The text `String(minutes)` of the second element of the destructured array:
`"undefined"` when the clock part has no `:`, the decimal digits of a modelled
number, and nothing for a number outside the modelled fragment. -/
def minuteText : Option JsNumber → Option (List Char)
  | none => some "undefined".data
  | some (.nat m) => some (Nat.repr m).data
  | some .other => none

/-- What a call of a modelled function does: it returns a value, raises an
error, or depends on a number outside the modelled fragment. -/
inductive Outcome (α : Type) where
  | returned (a : α)
  | threw (e : JsError)
  | unmodelled
  deriving DecidableEq

/-- The function `convertTo24HourFormat(time)` of `api.js`.  `time.split(' ')`
is destructured into `timePart` (always present) and `modifier` (`undefined`
when there is no space); `timePart.split(':').map(Number)` is destructured into
`hours` (always present) and `minutes`.  `modifier.toLowerCase()` raises a
`TypeError` when `modifier` is `undefined`.  Comparing the lowered modifier with
`'pm'`/`'am'` only depends on the ASCII letters, which `Char.toLower` lowers. -/
def convertTo24HourFormat (time : String) : Outcome String :=
  let parts := splitChars ' ' time.data
  let timePart := parts.headD []
  let nums := (splitChars ':' timePart).map toNumber
  match parts.get? 1 with
  | none => .threw .typeError
  | some modifier =>
    let lower := modifier.map Char.toLower
    match nums.headD .other with
    | .other => .unmodelled
    | .nat h =>
      let hours :=
        if lower = ['p', 'm'] ∧ h < 12 then h + 12
        else if lower = ['a', 'm'] ∧ h = 12 then 0
        else h
      match minuteText (nums.get? 1) with
      | none => .unmodelled
      | some mm =>
        .returned ⟨padStart2 (Nat.repr hours).data ++ ':' :: padStart2 mm ++ [':', '0', '0']⟩

/-! ## The request handlers -/

/-- The parsed JSON body of a create-reservation request: the four members the
handler reads. -/
structure RequestBody where
  name : JsValue
  date : JsValue
  time : JsValue
  is_vip : JsValue

/-- A row of the table `reservations`. -/
structure Row where
  id : Nat
  name : String
  date : String
  time : String
  is_vip : Nat
  deriving DecidableEq

/-- The statements the handlers pass to `db.query`, with their parameters in
the order of the placeholders.  `insertOther` is the same `INSERT` statement
when the conversion of the sanitized time `rawTime` depends on a number outside
the modelled fragment: its third parameter is the string that
`convertTo24HourFormat(rawTime)` returns, which is not modelled. -/
inductive Statement where
  | insert (name date time : String) (isVip : Nat)
  | insertOther (name date rawTime : String) (isVip : Nat)
  | selectAll
  deriving DecidableEq

/-- What the driver hands to the callback of `db.query`: an error with its
`message`, or no error and the rows of the result. -/
inductive QueryResult where
  | error (message : String)
  | ok (rows : List Row)
  deriving DecidableEq

/-- The JSON body of a response. -/
inductive ResponseBody where
  | message (status : String) (message : String)
  | data (status : String) (data : List Row)
  deriving DecidableEq

/-- An HTTP response: status code and JSON body. -/
structure Response where
  status : Nat
  body : ResponseBody
  deriving DecidableEq

/-- The behaviour of a handler in continuation style: it sends a response,
passes a statement to `db.query` together with the callback to run on the
result, or raises an error. -/
inductive Action where
  | respond (r : Response)
  | query (stmt : Statement) (callback : QueryResult → Action)
  | throw (e : JsError)

/-- The callback that the create handler passes to `db.query`. -/
def insertCallback : QueryResult → Action
  | .error m => .respond ⟨500, .message "error" ("Error adding reservation: " ++ m)⟩
  | .ok _ => .respond ⟨201, .message "success" "Reservation added successfully."⟩

/-- The handler `app.post('/api/reservations', ...)`.  Once the modifier is
present `convertTo24HourFormat` always returns a string, so the insert is
issued also when that string is outside the modelled fragment. -/
def postReservations (body : RequestBody) : Action :=
  match sanitizeInput body.name with
  | .error e => .throw e
  | .ok name =>
    match sanitizeInput body.date with
    | .error e => .throw e
    | .ok date =>
      match sanitizeInput body.time with
      | .error e => .throw e
      | .ok time =>
        let isVip := if body.is_vip.truthy then 1 else 0
        if name.data = [] ∨ date.data = [] ∨ time.data = [] then
          .respond ⟨400, .message "error" "Name, date, and time are required."⟩
        else
          match convertTo24HourFormat time with
          | .threw e => .throw e
          | .unmodelled => .query (.insertOther name date time isVip) insertCallback
          | .returned time24 => .query (.insert name date time24 isVip) insertCallback

/-- The handler `app.get('/api/reservations', ...)`; `res.json` without
`res.status` sends status 200. -/
def getReservations : Action :=
  .query .selectAll fun result =>
    match result with
    | .error m =>
      .respond ⟨500, .message "error" ("Error fetching reservations: " ++ m)⟩
    | .ok results => .respond ⟨200, .data "success" results⟩

/-- The error-handling middleware `app.use((err, req, res, next) => ...)`, which
receives an error raised by a handler. -/
def errorMiddleware (_err : JsError) : Response :=
  ⟨500, .message "error" "An unexpected error occurred"⟩

/-- The result of handling one request: the store afterwards, the statements
issued in order, and the response sent. -/
structure Handled (σ : Type) where
  store : σ
  issued : List Statement
  completion : Response

/-- Runs a handler against a store of type `σ` whose driver `exec` executes one
statement, yielding the new store and the result passed to the callback. -/
def runAction {σ : Type} (exec : σ → Statement → σ × QueryResult) :
    Action → σ → Handled σ
  | .respond r, st => ⟨st, [], r⟩
  | .throw e, st => ⟨st, [], errorMiddleware e⟩
  | .query stmt callback, st =>
    let after := runAction exec (callback (exec st stmt).2) (exec st stmt).1
    ⟨after.store, stmt :: after.issued, after.completion⟩

/-- The table `reservations` as created by the `CREATE TABLE` statement of the
startup code: its rows and the next `AUTO_INCREMENT` value. -/
structure Table where
  rows : List Row
  nextId : Nat
  deriving DecidableEq

/-- A sample driver over `Table`: an insert appends a row with the next
identifier, a select returns all rows.  This driver rejects an insert whose
time is outside the modelled fragment and leaves the table as it is. -/
def tableExec (t : Table) : Statement → Table × QueryResult
  | .insert name date time isVip =>
    (⟨t.rows ++ [⟨t.nextId, name, date, time, isVip⟩], t.nextId + 1⟩, .ok [])
  | .insertOther _ _ _ _ => (t, .error "Incorrect time value")
  | .selectAll => (t, .ok t.rows)

/-! ## The startup sequence -/

/-- Where the process is: executing the top-level script before the call of
`db.connect` (line 26), before the call of `app.listen` (line 117), in the
event loop after the script has run to completion, or exited with a code. -/
inductive Phase where
  | beforeConnect
  | beforeListen
  | eventLoop
  | exited (code : Nat)
  deriving DecidableEq

/-- The state of the storage connection as reported to the callback of
`db.connect`. -/
inductive ConnState where
  | notStarted
  | pending
  | connected
  | failed
  deriving DecidableEq

/-- The state of the process during startup. -/
structure Startup where
  phase : Phase
  conn : ConnState
  listening : Bool
  tableRequested : Bool
  deriving DecidableEq

/-- What happens next: the script performs its next call, or the event loop
delivers the result of `db.connect` to its callback (with the error, if any). -/
inductive StartupEvent where
  | scriptCall
  | connectResult (err : Option String)
  deriving DecidableEq

/-- The state when the script starts. -/
def Startup.initial : Startup :=
  ⟨.beforeConnect, .notStarted, false, false⟩

/-- One step of the startup sequence.  The script calls `db.connect(callback)`
and then `app.listen(port)`, unconditionally and in this order; the callback of
`db.connect` runs from the event loop, once, after the script has completed.
With an error it calls `process.exit(1)`; without one it issues the
`CREATE TABLE IF NOT EXISTS` statement. -/
def Startup.step (s : Startup) : StartupEvent → Option Startup
  | .scriptCall =>
    match s.phase with
    | .beforeConnect => some { s with phase := .beforeListen, conn := .pending }
    | .beforeListen => some { s with phase := .eventLoop, listening := true }
    | _ => none
  | .connectResult err =>
    if s.phase = .eventLoop ∧ s.conn = .pending then
      match err with
      | some _ => some { s with phase := .exited 1, conn := .failed, listening := false }
      | none => some { s with conn := .connected, tableRequested := true }
    else none

/-- Runs a sequence of events from a state. -/
def Startup.run (s : Startup) : List StartupEvent → Option Startup
  | [] => some s
  | e :: es => (s.step e).bind fun t => t.run es

/-- A state is reachable when some sequence of events leads to it from the
initial state. -/
def Startup.Reachable (s : Startup) : Prop :=
  ∃ events, Startup.initial.run events = some s

/-! ## Vocabulary of the properties -/

/-- The two-digit, zero-padded decimal text of a number below one hundred. -/
def twoDigits (n : Nat) : String :=
  ⟨[Char.ofNat (48 + n / 10), Char.ofNat (48 + n % 10)]⟩

/-- The 24-hour value of the hour `h` of a 12-hour clock: `0` for 12 AM,
`h + 12` for a PM hour below 12, and `h` otherwise. -/
def hour24 (h : Nat) (pm : Bool) : Nat :=
  if pm = false ∧ h = 12 then 0
  else if pm = true ∧ h < 12 then h + 12
  else h

/-- The spellings of the meridiem marker in any letter case. -/
def meridiemSpellings (pm : Bool) : List String :=
  if pm then ["pm", "pM", "Pm", "PM"] else ["am", "aM", "Am", "AM"]

/-- A well-formed 12-hour time text for hour `h`, minute `m` and meridiem `pm`:
the hour in decimal, with or without a leading zero, a colon, the two-digit
minute, one space and the meridiem marker. -/
def WellFormedTime (h m : Nat) (pm : Bool) (text : String) : Prop :=
  1 ≤ h ∧ h ≤ 12 ∧ m ≤ 59 ∧
    ∃ hourText marker, (hourText = Nat.repr h ∨ hourText = twoDigits h) ∧
      marker ∈ meridiemSpellings pm ∧
      text = hourText ++ ":" ++ twoDigits m ++ " " ++ marker

/-- A list of characters contains a match of the tag pattern: a `<`, then one
or more characters other than `>`, then a `>`. -/
def ContainsTag (text : List Char) : Prop :=
  ∃ before inner after, inner ≠ [] ∧ '>' ∉ inner ∧
    text = before ++ '<' :: inner ++ '>' :: after

/-- Some suffix of the text starts with a match of the regular expression
`<[^>]+>`. -/
def anyTagMatch : List Char → Bool
  | [] => false
  | c :: cs => (tagMatchLen (c :: cs)).isSome || anyTagMatch cs

/-- A field of the request body that is falsy (absent, `null`, `false`, `0`) or
a string: the values on which `sanitizeInput` does not raise an error. -/
def IsFalsyOrText (v : JsValue) : Prop :=
  v.truthy = false ∨ ∃ s, v = .str s

/-- A field that is absent, `null`, the empty string, or a string that becomes
the empty string after `sanitizeInput`. -/
def IsMissing (v : JsValue) : Prop :=
  v = .undefined ∨ v = .null ∨ v = .str "" ∨
    ∃ s, v = .str s ∧ sanitizeInput (.str s) = .ok ""

/-- The response to a create request with a missing field. -/
def missingFieldResponse : Response :=
  ⟨400, .message "error" "Name, date, and time are required."⟩

/-- The invariant of the startup sequence: what holds in each phase. -/
def Startup.Inv (s : Startup) : Prop :=
  (s.phase = .beforeConnect ∧ s.conn = .notStarted ∧ s.listening = false) ∨
  (s.phase = .beforeListen ∧ s.conn = .pending ∧ s.listening = false) ∨
  (s.phase = .eventLoop ∧ (s.conn = .pending ∨ s.conn = .connected) ∧ s.listening = true) ∨
  (s.phase = .exited 1 ∧ s.conn = .failed ∧ s.listening = false)

/-- A driver over `Table` on which every statement fails with the message
`m`, leaving the table as it is. -/
def failingExec (m : String) (t : Table) (_stmt : Statement) : Table × QueryResult :=
  (t, .error m)

/-! ## Lemmas on `sanitizeInput` -/

theorem closeIdx_eq_none {l : List Char} : closeIdx l = none ↔ '>' ∉ l := by
  induction l with
  | nil => simp [closeIdx]
  | cons c cs ih =>
    by_cases hc : c = '>'
    · simp [closeIdx, hc]
    · have hne : ¬ '>' = c := fun h => hc h.symm
      simp [closeIdx, hc, hne, ih]

theorem closeIdx_append {pre post : List Char} (h : '>' ∉ pre) :
    closeIdx (pre ++ '>' :: post) = some pre.length := by
  induction pre with
  | nil => simp [closeIdx]
  | cons c cs ih =>
    have hc : c ≠ '>' := fun e => h (by simp [e])
    have hcs : '>' ∉ cs := fun e => h (by simp [e])
    simp [closeIdx, hc, ih hcs]

theorem closeIdx_some {l : List Char} {j : Nat} (h : closeIdx l = some j) :
    ∃ pre post, l = pre ++ '>' :: post ∧ '>' ∉ pre := by
  induction l generalizing j with
  | nil => simp [closeIdx] at h
  | cons c cs ih =>
    by_cases hc : c = '>'
    · exact ⟨[], cs, by simp [hc], by simp⟩
    · simp only [closeIdx, hc, if_false] at h
      cases hcs : closeIdx cs with
      | none => simp [hcs] at h
      | some i =>
        obtain ⟨pre, post, rfl, hpre⟩ := ih hcs
        refine ⟨c :: pre, post, by simp, ?_⟩
        intro hmem
        rcases List.mem_cons.mp hmem with e | e
        · exact hc e.symm
        · exact hpre e

theorem tagMatchLen_of_no_close {c : Char} {l : List Char} (h : '>' ∉ l) :
    tagMatchLen (c :: l) = none := by
  cases l with
  | nil => simp [tagMatchLen]
  | cons d ds =>
    have hds : closeIdx ds = none := closeIdx_eq_none.mpr fun e => h (by simp [e])
    simp [tagMatchLen, hds]

theorem containsTag_of_tagMatchLen {l : List Char} {n : Nat}
    (h : tagMatchLen l = some n) : ContainsTag l := by
  cases l with
  | nil => simp [tagMatchLen] at h
  | cons c cs =>
    by_cases hc : c = '<'
    · cases cs with
      | nil => simp [tagMatchLen, hc] at h
      | cons d ds =>
        by_cases hd : d = '>'
        · simp [tagMatchLen, hc, hd] at h
        · cases hcl : closeIdx ds with
          | none => simp [tagMatchLen, hc, hd, hcl] at h
          | some j =>
            obtain ⟨pre, post, rfl, hpre⟩ := closeIdx_some hcl
            refine ⟨[], d :: pre, post, by simp, ?_, by simp [hc]⟩
            intro hmem
            rcases List.mem_cons.mp hmem with e | e
            · exact hd e.symm
            · exact hpre e
    · simp [tagMatchLen, hc] at h

theorem ContainsTag.cons {l : List Char} (c : Char) (h : ContainsTag l) :
    ContainsTag (c :: l) := by
  obtain ⟨before, inner, after, h1, h2, rfl⟩ := h
  exact ⟨c :: before, inner, after, h1, h2, by simp⟩

theorem containsTag_iff {l : List Char} : ContainsTag l ↔ anyTagMatch l = true := by
  constructor
  · rintro ⟨before, inner, after, h1, h2, rfl⟩
    induction before with
    | nil =>
      cases inner with
      | nil => exact absurd rfl h1
      | cons d rest =>
        have hd : d ≠ '>' := fun e => h2 (by simp [e])
        have hrest : '>' ∉ rest := fun e => h2 (by simp [e])
        simp [anyTagMatch, tagMatchLen, hd, closeIdx_append hrest]
    | cons c cs ih =>
      simp only [List.cons_append, anyTagMatch, Bool.or_eq_true]
      exact Or.inr ih
  · intro h
    induction l with
    | nil => simp [anyTagMatch] at h
    | cons c cs ih =>
      simp only [anyTagMatch, Bool.or_eq_true] at h
      rcases h with h | h
      · obtain ⟨n, hn⟩ := Option.isSome_iff_exists.mp h
        exact containsTag_of_tagMatchLen hn
      · exact (ih h).cons c

theorem replaceTagsFrom_sublist (k : Nat) (l : List Char) :
    (replaceTagsFrom k l).Sublist l := by
  induction l generalizing k with
  | nil => cases k <;> simp [replaceTagsFrom]
  | cons c cs ih =>
    cases k with
    | succ k => exact (ih k).cons c
    | zero =>
      simp only [replaceTagsFrom]
      split
      · exact (ih _).cons c
      · exact (ih 0).cons₂ c

theorem replaceTagsFrom_of_no_tag {l : List Char} (h : ¬ ContainsTag l) :
    replaceTagsFrom 0 l = l := by
  induction l with
  | nil => simp [replaceTagsFrom]
  | cons c cs ih =>
    have hcs : ¬ ContainsTag cs := fun e => h (e.cons c)
    cases hm : tagMatchLen (c :: cs) with
    | some n => exact absurd (containsTag_of_tagMatchLen hm) h
    | none => simp [replaceTagsFrom, hm, ih hcs]

theorem not_containsTag_of_no_open {l : List Char} (h : '<' ∉ l) : ¬ ContainsTag l := by
  rintro ⟨before, inner, after, -, -, rfl⟩
  exact h (by simp)

theorem anyTagMatch_replaceTagsFrom (k : Nat) (l : List Char) :
    anyTagMatch (replaceTagsFrom k l) = false := by
  induction l generalizing k with
  | nil => cases k <;> simp [replaceTagsFrom, anyTagMatch]
  | cons c cs ih =>
    cases k with
    | succ k => simpa [replaceTagsFrom] using ih k
    | zero =>
      cases hm : tagMatchLen (c :: cs) with
      | some n => simpa [replaceTagsFrom, hm] using ih (n - 1)
      | none =>
        have hhead : tagMatchLen (c :: replaceTagsFrom 0 cs) = none := by
          by_cases hc : c = '<'
          · cases cs with
            | nil => simp [replaceTagsFrom, tagMatchLen]
            | cons d ds =>
              by_cases hd : d = '>'
              · simp [replaceTagsFrom, tagMatchLen, hd]
              · have hcl : closeIdx ds = none := by
                  cases hcl : closeIdx ds with
                  | none => rfl
                  | some j => simp [tagMatchLen, hc, hd, hcl] at hm
                have hno : '>' ∉ d :: ds := by
                  intro hmem
                  rcases List.mem_cons.mp hmem with e | e
                  · exact hd e.symm
                  · exact closeIdx_eq_none.mp hcl e
                exact tagMatchLen_of_no_close
                  fun e => hno ((replaceTagsFrom_sublist 0 (d :: ds)).subset e)
          · simp [tagMatchLen, hc]
        simp [replaceTagsFrom, hm, anyTagMatch, hhead, ih 0]

theorem not_containsTag_replaceTags (s : String) : ¬ ContainsTag (replaceTags s).data := by
  rw [containsTag_iff]
  simp [replaceTags, anyTagMatch_replaceTagsFrom]

theorem sanitizeInput_str (s : String) : sanitizeInput (.str s) = .ok (replaceTags s) := by
  cases s with
  | mk l =>
    cases l with
    | nil => rfl
    | cons c cs => rfl

/-! ## Lemmas on `convertTo24HourFormat` -/

theorem splitChars_of_not_mem {sep : Char} {a : List Char} (h : sep ∉ a) :
    splitChars sep a = [a] := by
  induction a with
  | nil => rfl
  | cons c cs ih =>
    have hc : c ≠ sep := fun e => h (by simp [e])
    have hcs : sep ∉ cs := fun e => h (by simp [e])
    simp [splitChars, hc, ih hcs]

theorem splitChars_append {sep : Char} {a : List Char} (b : List Char) (h : sep ∉ a) :
    splitChars sep (a ++ sep :: b) = a :: splitChars sep b := by
  induction a with
  | nil => simp [splitChars]
  | cons c cs ih =>
    have hc : c ≠ sep := fun e => h (by simp [e])
    have hcs : sep ∉ cs := fun e => h (by simp [e])
    simp [splitChars, hc, ih hcs]

theorem splitChars_length_one {a : List Char} (h : ' ' ∉ a) :
    (splitChars ' ' a).get? 1 = none := by
  rw [splitChars_of_not_mem h]; rfl

/-- The conversion of a text made of an hour text, a colon, a minute text, a
space and a marker, none of which contains a separator, when the hour and
minute texts are the numbers `h` and `m`. -/
theorem convert_parts {hourText minText marker : List Char} {h m : Nat}
    (hs1 : ' ' ∉ hourText) (hs2 : ' ' ∉ minText) (hs3 : ' ' ∉ marker)
    (hc1 : ':' ∉ hourText) (hc2 : ':' ∉ minText)
    (hh : toNumber hourText = .nat h) (hm : toNumber minText = .nat m) :
    convertTo24HourFormat ⟨hourText ++ ':' :: minText ++ ' ' :: marker⟩ =
      .returned ⟨padStart2 (Nat.repr
          (if marker.map Char.toLower = ['p', 'm'] ∧ h < 12 then h + 12
           else if marker.map Char.toLower = ['a', 'm'] ∧ h = 12 then 0
           else h)).data ++ ':' :: padStart2 (Nat.repr m).data ++ [':', '0', '0']⟩ := by
  have hsp : ' ' ∉ hourText ++ ':' :: minText := by
    simp only [List.mem_append, List.mem_cons, not_or]
    exact ⟨hs1, by decide, hs2⟩
  have e1 : splitChars ' ' (hourText ++ ':' :: minText ++ ' ' :: marker) =
      [hourText ++ ':' :: minText, marker] := by
    rw [splitChars_append _ hsp, splitChars_of_not_mem hs3]
  have e2 : splitChars ':' (hourText ++ ':' :: minText) = [hourText, minText] := by
    rw [splitChars_append _ hc1, splitChars_of_not_mem hc2]
  simp only [convertTo24HourFormat, e1, List.headD_cons, e2, List.map_cons, List.map_nil,
    List.get?_cons_succ, List.get?_cons_zero, hh, hm, minuteText]

/-- Facts about the texts of the numbers below sixty, checked case by case. -/
theorem small_number_texts : ∀ n, n < 60 →
    ' ' ∉ (twoDigits n).data ∧ ':' ∉ (twoDigits n).data ∧
    ' ' ∉ (Nat.repr n).data ∧ ':' ∉ (Nat.repr n).data ∧
    toNumber (twoDigits n).data = .nat n ∧ toNumber (Nat.repr n).data = .nat n ∧
    padStart2 (Nat.repr n).data = (twoDigits n).data := by
  decide

/-- Facts about the spellings of the meridiem marker. -/
theorem marker_facts : ∀ pm : Bool, ∀ marker ∈ meridiemSpellings pm,
    ' ' ∉ marker.data ∧
    marker.data.map Char.toLower = (if pm then ['p', 'm'] else ['a', 'm']) := by
  decide

theorem hour24_lt (h : Nat) (pm : Bool) (h1 : 1 ≤ h) (h12 : h ≤ 12) : hour24 h pm < 24 := by
  unfold hour24
  cases pm <;> simp <;> split <;> omega

/-- The result of the conversion on every well-formed 12-hour time text. -/
theorem convert_wellFormed {h m : Nat} {pm : Bool} {text : String}
    (hw : WellFormedTime h m pm text) :
    convertTo24HourFormat text =
      .returned (twoDigits (hour24 h pm) ++ ":" ++ twoDigits m ++ ":00") := by
  obtain ⟨h1, h12, hm, hourText, marker, hht, hmk, rfl⟩ := hw
  obtain ⟨ms, mc, _, _, mnum, _, mpad⟩ := small_number_texts m (by omega)
  obtain ⟨_, _, hs, hc, _, hnum, _⟩ := small_number_texts h (by omega)
  obtain ⟨hs2, hc2, _, _, hnum2, _, _⟩ := small_number_texts h (by omega)
  obtain ⟨ks, klow⟩ := marker_facts pm marker hmk
  obtain ⟨_, _, _, _, _, _, hpad⟩ := small_number_texts (hour24 h pm)
    (by have := hour24_lt h pm h1 h12; omega)
  have hsH : ' ' ∉ hourText.data := by rcases hht with e | e <;> simpa [e]
  have hcH : ':' ∉ hourText.data := by rcases hht with e | e <;> simpa [e]
  have hnH : toNumber hourText.data = .nat h := by rcases hht with e | e <;> simpa [e]
  have hdata : hourText ++ ":" ++ twoDigits m ++ " " ++ marker =
      ⟨hourText.data ++ ':' :: (twoDigits m).data ++ ' ' :: marker.data⟩ := by
    apply String.ext
    simp [String.data_append]
  have hhour : (if marker.data.map Char.toLower = ['p', 'm'] ∧ h < 12 then h + 12
      else if marker.data.map Char.toLower = ['a', 'm'] ∧ h = 12 then 0 else h) =
      hour24 h pm := by
    rw [klow]
    unfold hour24
    cases pm <;> simp
  rw [hdata, convert_parts hsH ms ks hcH mc hnH mnum, hhour, hpad, mpad]
  congr 1

theorem twoDigits_inj {a b : Nat} (ha : a < 60) (hb : b < 60)
    (h : twoDigits a = twoDigits b) : a = b := by
  have e1 := (small_number_texts a ha).2.2.2.2.1
  have e2 := (small_number_texts b hb).2.2.2.2.1
  rw [h, e2] at e1
  exact (JsNumber.nat.inj e1).symm

theorem canonical_inj {a b c d : Nat}
    (h : twoDigits a ++ ":" ++ twoDigits c ++ ":00" = twoDigits b ++ ":" ++ twoDigits d ++ ":00") :
    twoDigits a = twoDigits b ∧ twoDigits c = twoDigits d := by
  have hd := congrArg String.data h
  simp only [String.data_append, twoDigits, List.cons_append, List.nil_append,
    List.cons.injEq] at hd
  obtain ⟨h1, h2, -, h3, h4, -⟩ := hd
  refine ⟨?_, ?_⟩
  · simp only [twoDigits, h1, h2]
  · simp only [twoDigits, h3, h4]

theorem hour24_inj {h1 h2 : Nat} {pm1 pm2 : Bool} (a1 : 1 ≤ h1) (b1 : h1 ≤ 12)
    (a2 : 1 ≤ h2) (b2 : h2 ≤ 12) (h : hour24 h1 pm1 = hour24 h2 pm2) :
    h1 = h2 ∧ pm1 = pm2 := by
  unfold hour24 at h
  cases pm1 <;> cases pm2 <;> simp at h <;> (try split at h) <;> (try split at h) <;>
    simp <;> omega

/-! ## Lemmas on the handlers and the startup sequence -/

theorem sanitizeInput_of_missing {v : JsValue} (h : IsMissing v) :
    sanitizeInput v = .ok "" := by
  rcases h with rfl | rfl | rfl | ⟨s, rfl, hs⟩
  · rfl
  · rfl
  · rfl
  · exact hs

theorem sanitizeInput_of_falsyOrText {v : JsValue} (h : IsFalsyOrText v) :
    ∃ s, sanitizeInput v = .ok s := by
  rcases h with h | ⟨s, rfl⟩
  · exact ⟨"", by simp [sanitizeInput, h]⟩
  · exact ⟨_, sanitizeInput_str s⟩

/-- The handler once the three fields are sanitized. -/
theorem postReservations_of_sanitized {body : RequestBody} {n d t : String}
    (hn : sanitizeInput body.name = .ok n) (hd : sanitizeInput body.date = .ok d)
    (ht : sanitizeInput body.time = .ok t) :
    postReservations body =
      if n.data = [] ∨ d.data = [] ∨ t.data = [] then .respond missingFieldResponse
      else
        match convertTo24HourFormat t with
        | .threw e => .throw e
        | .unmodelled =>
          .query (.insertOther n d t (if body.is_vip.truthy then 1 else 0)) insertCallback
        | .returned time24 =>
          .query (.insert n d time24 (if body.is_vip.truthy then 1 else 0))
            insertCallback := by
  simp only [postReservations, hn, hd, ht, missingFieldResponse]

theorem convert_of_no_space {t : String} (h : ' ' ∉ t.data) :
    convertTo24HourFormat t = .threw .typeError := by
  simp only [convertTo24HourFormat, splitChars_length_one h]

/-- The forms the create handler can take: the 400 response, a raised error,
or one statement with the callback of the handler. -/
theorem postReservations_shape (body : RequestBody) :
    postReservations body = .respond missingFieldResponse ∨
    (∃ e, postReservations body = .throw e) ∨
    ∃ stmt, postReservations body = .query stmt insertCallback := by
  unfold postReservations
  cases sanitizeInput body.name with
  | error e => exact Or.inr (Or.inl ⟨e, rfl⟩)
  | ok n =>
    cases sanitizeInput body.date with
    | error e => exact Or.inr (Or.inl ⟨e, rfl⟩)
    | ok d =>
      cases sanitizeInput body.time with
      | error e => exact Or.inr (Or.inl ⟨e, rfl⟩)
      | ok t =>
        by_cases hv : n.data = [] ∨ d.data = [] ∨ t.data = []
        · exact Or.inl (if_pos hv)
        · simp only [hv, if_false]
          cases convertTo24HourFormat t with
          | threw e => exact Or.inr (Or.inl ⟨e, rfl⟩)
          | unmodelled => exact Or.inr (Or.inr ⟨_, rfl⟩)
          | returned t24 => exact Or.inr (Or.inr ⟨_, rfl⟩)

/-- Running one statement with the callback of the create handler. -/
theorem runAction_insert {σ : Type} (exec : σ → Statement → σ × QueryResult) (st : σ)
    (stmt : Statement) :
    (runAction exec (.query stmt insertCallback) st).issued = [stmt] ∧
    (runAction exec (.query stmt insertCallback) st).store = (exec st stmt).1 ∧
    (runAction exec (.query stmt insertCallback) st).completion =
      match (exec st stmt).2 with
      | .error m => ⟨500, .message "error" ("Error adding reservation: " ++ m)⟩
      | .ok _ => ⟨201, .message "success" "Reservation added successfully."⟩ := by
  simp only [runAction]
  cases (exec st stmt).2 <;> exact ⟨rfl, rfl, rfl⟩

/-- A create request with a missing field raises an error or is answered 400;
the latter when the three fields sanitize without an error. -/
theorem post_of_missing {body : RequestBody}
    (hmiss : IsMissing body.name ∨ IsMissing body.date ∨ IsMissing body.time) :
    (postReservations body = .respond missingFieldResponse ∨
      ∃ e, postReservations body = .throw e) ∧
    ((IsFalsyOrText body.name ∧ IsFalsyOrText body.date ∧ IsFalsyOrText body.time) →
      postReservations body = .respond missingFieldResponse) := by
  have key : ∀ n d t, sanitizeInput body.name = .ok n → sanitizeInput body.date = .ok d →
      sanitizeInput body.time = .ok t →
      postReservations body = .respond missingFieldResponse := by
    intro n d t hn hd ht
    have hempty : n.data = [] ∨ d.data = [] ∨ t.data = [] := by
      rcases hmiss with h | h | h
      · have e := sanitizeInput_of_missing h
        rw [hn] at e
        exact Or.inl (by rw [Except.ok.inj e])
      · have e := sanitizeInput_of_missing h
        rw [hd] at e
        exact Or.inr (Or.inl (by rw [Except.ok.inj e]))
      · have e := sanitizeInput_of_missing h
        rw [ht] at e
        exact Or.inr (Or.inr (by rw [Except.ok.inj e]))
    rw [postReservations_of_sanitized hn hd ht, if_pos hempty]
  constructor
  · cases hn : sanitizeInput body.name with
    | error e => exact Or.inr ⟨e, by simp only [postReservations, hn]⟩
    | ok n =>
      cases hd : sanitizeInput body.date with
      | error e => exact Or.inr ⟨e, by simp only [postReservations, hn, hd]⟩
      | ok d =>
        cases ht : sanitizeInput body.time with
        | error e => exact Or.inr ⟨e, by simp only [postReservations, hn, hd, ht]⟩
        | ok t => exact Or.inl (key n d t hn hd ht)
  · rintro ⟨h1, h2, h3⟩
    obtain ⟨n, hn⟩ := sanitizeInput_of_falsyOrText h1
    obtain ⟨d, hd⟩ := sanitizeInput_of_falsyOrText h2
    obtain ⟨t, ht⟩ := sanitizeInput_of_falsyOrText h3
    exact key n d t hn hd ht

theorem Startup.inv_step {s t : Startup} {e : StartupEvent} (hs : s.Inv)
    (h : s.step e = some t) : t.Inv := by
  obtain ⟨phase, conn, listening, tableRequested⟩ := s
  unfold Startup.Inv at hs ⊢
  cases e with
  | scriptCall =>
    cases phase <;> simp [Startup.step] at h <;> subst h <;> simp_all
  | connectResult err =>
    simp only [Startup.step] at h
    split at h
    · rename_i hc
      obtain ⟨rfl, rfl⟩ := hc
      cases err <;> simp at h <;> subst h <;> simp_all
    · simp at h

theorem Startup.inv_run {s t : Startup} (events : List StartupEvent) (hs : s.Inv)
    (h : s.run events = some t) : t.Inv := by
  induction events generalizing s with
  | nil =>
    simp only [Startup.run, Option.some.injEq] at h
    exact h ▸ hs
  | cons e es ih =>
    simp only [Startup.run] at h
    cases hstep : s.step e with
    | none => simp [hstep] at h
    | some u =>
      rw [hstep] at h
      exact ih (Startup.inv_step hs hstep) h

theorem Startup.inv_of_reachable {s : Startup} (h : s.Reachable) : s.Inv := by
  obtain ⟨events, hrun⟩ := h
  exact Startup.inv_run events (Or.inl ⟨rfl, rfl, rfl⟩) hrun

/-! ## The properties -/

/-- C1: for every well-formed 12-hour time text `h:mm XM` (hour `1..12` in
decimal, two-digit minute `0..59`, one space, meridiem in any letter case),
`convertTo24HourFormat` returns exactly `HH:MM:00`, where `MM` is the minute on
two digits and `HH` is the two-digit text of `H`, with `H = 0` for 12 AM,
`H = h + 12` for a PM hour below 12 and `H = h` otherwise; the result has eight
characters and `H` is at most 23. -/
theorem convertTo24HourFormat_wellFormed (h m : Nat) (pm : Bool) (text : String)
    (hw : WellFormedTime h m pm text) :
    convertTo24HourFormat text =
      .returned (twoDigits (hour24 h pm) ++ ":" ++ twoDigits m ++ ":00") ∧
    (twoDigits (hour24 h pm) ++ ":" ++ twoDigits m ++ ":00").length = 8 ∧
    hour24 h pm ≤ 23 := by
  refine ⟨convert_wellFormed hw, ?_, ?_⟩
  · rfl
  · have := hour24_lt h pm hw.1 hw.2.1
    omega

/-- The four examples of C1: `12:00 AM`, `12:00 PM`, `1:05 PM` and
`11:59 AM` are well formed and convert to `00:00:00`, `12:00:00`, `13:05:00`
and `11:59:00`. -/
theorem convertTo24HourFormat_wellFormed_witness :
    (WellFormedTime 12 0 false "12:00 AM" ∧
      convertTo24HourFormat "12:00 AM" = .returned "00:00:00") ∧
    (WellFormedTime 12 0 true "12:00 PM" ∧
      convertTo24HourFormat "12:00 PM" = .returned "12:00:00") ∧
    (WellFormedTime 1 5 true "1:05 PM" ∧
      convertTo24HourFormat "1:05 PM" = .returned "13:05:00") ∧
    (WellFormedTime 11 59 false "11:59 AM" ∧
      convertTo24HourFormat "11:59 AM" = .returned "11:59:00") := by
  have w1 : WellFormedTime 12 0 false "12:00 AM" :=
    ⟨by decide, by decide, by decide, "12", "AM", Or.inl (by decide), by decide, by decide⟩
  have w2 : WellFormedTime 12 0 true "12:00 PM" :=
    ⟨by decide, by decide, by decide, "12", "PM", Or.inl (by decide), by decide, by decide⟩
  have w3 : WellFormedTime 1 5 true "1:05 PM" :=
    ⟨by decide, by decide, by decide, "1", "PM", Or.inl (by decide), by decide, by decide⟩
  have w4 : WellFormedTime 11 59 false "11:59 AM" :=
    ⟨by decide, by decide, by decide, "11", "AM", Or.inl (by decide), by decide, by decide⟩
  exact ⟨⟨w1, (convertTo24HourFormat_wellFormed 12 0 false "12:00 AM" w1).1⟩,
    ⟨w2, (convertTo24HourFormat_wellFormed 12 0 true "12:00 PM" w2).1⟩,
    ⟨w3, (convertTo24HourFormat_wellFormed 1 5 true "1:05 PM" w3).1⟩,
    ⟨w4, (convertTo24HourFormat_wellFormed 11 59 false "11:59 AM" w4).1⟩⟩

/-- C2: for every string, `sanitizeInput` returns a string that contains no
match of the tag pattern (a `<`, one or more characters other than `>`, a `>`),
so that sanitizing the result again changes nothing. -/
theorem sanitizeInput_leaves_no_tag (s : String) :
    ∃ out, sanitizeInput (.str s) = .ok out ∧ ¬ ContainsTag out.data ∧
      sanitizeInput (.str out) = .ok out := by
  refine ⟨replaceTags s, sanitizeInput_str s, not_containsTag_replaceTags s, ?_⟩
  rw [sanitizeInput_str]
  congr 1
  apply String.ext
  exact replaceTagsFrom_of_no_tag (not_containsTag_replaceTags s)

/-- C3, as the code behaves: `sanitizeInput("<script>x</script>hello")` returns
`"xhello"`; the two tags are removed and the text between them is kept. -/
theorem sanitizeInput_script_example :
    sanitizeInput (.str "<script>x</script>hello") = .ok "xhello" := by
  rfl

/-- C3 as stated fails: `sanitizeInput("<script>x</script>hello")` is not
`"hello"`. -/
theorem sanitizeInput_script_example_not_hello :
    sanitizeInput (.str "<script>x</script>hello") ≠ .ok "hello" := by
  intro h
  have e : sanitizeInput (.str "<script>x</script>hello") = .ok "xhello" := rfl
  rw [e] at h
  exact absurd (Except.ok.inj h) (by decide)

/-- C4, as the code behaves: when one of `name`, `date` and `time` is absent,
`null`, the empty string or a string that becomes empty after `sanitizeInput`,
the create handler issues no statement and leaves the store unchanged; and when
moreover none of the three is a truthy value other than a string, it responds
with status 400 and the message `Name, date, and time are required.`, whatever
the time is (the response is sent before the time is converted). -/
theorem post_missing_field (body : RequestBody)
    (hmiss : IsMissing body.name ∨ IsMissing body.date ∨ IsMissing body.time)
    {σ : Type} (exec : σ → Statement → σ × QueryResult) (st : σ) :
    (runAction exec (postReservations body) st).issued = [] ∧
    (runAction exec (postReservations body) st).store = st ∧
    ((IsFalsyOrText body.name ∧ IsFalsyOrText body.date ∧ IsFalsyOrText body.time) →
      postReservations body =
        .respond ⟨400, .message "error" "Name, date, and time are required."⟩ ∧
      (runAction exec (postReservations body) st).completion =
        ⟨400, .message "error" "Name, date, and time are required."⟩) := by
  obtain ⟨hform, htyped⟩ := post_of_missing hmiss
  refine ⟨?_, ?_, ?_⟩
  · rcases hform with h | ⟨e, h⟩ <;> rw [h] <;> rfl
  · rcases hform with h | ⟨e, h⟩ <;> rw [h] <;> rfl
  · intro hty
    have h := htyped hty
    rw [h]
    exact ⟨rfl, rfl⟩

/-- An instance of C4 as amended: a name made of one tag, with a time that has
no meridiem marker, is answered with status 400 and nothing is inserted into
the table. -/
theorem post_missing_field_witness :
    IsMissing (JsValue.str "<b>") ∧
    (runAction tableExec
      (postReservations ⟨.str "<b>", .str "2024-05-01", .str "15:00", .undefined⟩)
      ⟨[], 1⟩).issued = [] ∧
    (runAction tableExec
      (postReservations ⟨.str "<b>", .str "2024-05-01", .str "15:00", .undefined⟩)
      ⟨[], 1⟩).store = ⟨[], 1⟩ ∧
    (runAction tableExec
      (postReservations ⟨.str "<b>", .str "2024-05-01", .str "15:00", .undefined⟩)
      ⟨[], 1⟩).completion =
      ⟨400, .message "error" "Name, date, and time are required."⟩ := by
  have hm : IsMissing (JsValue.str "<b>") := Or.inr (Or.inr (Or.inr ⟨"<b>", rfl, rfl⟩))
  have h := post_missing_field
    ⟨.str "<b>", .str "2024-05-01", .str "15:00", .undefined⟩ (Or.inl hm) tableExec ⟨[], 1⟩
  exact ⟨hm, h.1, h.2.1,
    (h.2.2 ⟨Or.inr ⟨_, rfl⟩, Or.inr ⟨_, rfl⟩, Or.inr ⟨_, rfl⟩⟩).2⟩

/-- C4 as stated fails: in the request with the number 5 as name, no date and
the time `3:00 PM`, the date is absent, yet `sanitizeInput(5)` raises a
`TypeError` before the validation and the request is answered with status 500
and `An unexpected error occurred`, not with status 400. -/
theorem post_missing_field_nonstring_name :
    IsMissing JsValue.undefined ∧
    postReservations ⟨.number 5, .undefined, .str "3:00 PM", .undefined⟩ =
      .throw .typeError ∧
    (runAction tableExec
      (postReservations ⟨.number 5, .undefined, .str "3:00 PM", .undefined⟩)
      ⟨[], 1⟩).completion = ⟨500, .message "error" "An unexpected error occurred"⟩ ∧
    (runAction tableExec
      (postReservations ⟨.number 5, .undefined, .str "3:00 PM", .undefined⟩)
      ⟨[], 1⟩).completion ≠
      ⟨400, .message "error" "Name, date, and time are required."⟩ := by
  refine ⟨Or.inl rfl, rfl, rfl, ?_⟩
  have e : (runAction tableExec
      (postReservations ⟨.number 5, .undefined, .str "3:00 PM", .undefined⟩)
      ⟨[], 1⟩).completion = ⟨500, .message "error" "An unexpected error occurred"⟩ := rfl
  rw [e]
  decide

/-- C5: when the sanitized name and date are non-empty and the sanitized time
is a well-formed `h:mm AM|PM` text, the create handler issues exactly one
statement, the insert with parameters (sanitized name, sanitized date, converted
sanitized time, `v`) in this order, where `v` is 1 when `is_vip` is truthy and 0
otherwise, and runs it once on the store. -/
theorem post_wellFormed_insert (body : RequestBody) (n d t : String) (h m : Nat) (pm : Bool)
    (hn : sanitizeInput body.name = .ok n) (hd : sanitizeInput body.date = .ok d)
    (ht : sanitizeInput body.time = .ok t) (hn0 : n ≠ "") (hd0 : d ≠ "")
    (hw : WellFormedTime h m pm t)
    {σ : Type} (exec : σ → Statement → σ × QueryResult) (st : σ) :
    ∃ time24, convertTo24HourFormat t = .returned time24 ∧
      time24 = twoDigits (hour24 h pm) ++ ":" ++ twoDigits m ++ ":00" ∧
      (runAction exec (postReservations body) st).issued =
        [.insert n d time24 (if body.is_vip.truthy then 1 else 0)] ∧
      (runAction exec (postReservations body) st).store =
        (exec st (.insert n d time24 (if body.is_vip.truthy then 1 else 0))).1 := by
  have hconv := convert_wellFormed hw
  refine ⟨_, hconv, rfl, ?_⟩
  have hn1 : n.data ≠ [] := fun e => hn0 (String.ext e)
  have hd1 : d.data ≠ [] := fun e => hd0 (String.ext e)
  have ht1 : t.data ≠ [] := by
    obtain ⟨_, _, _, hourText, marker, _, _, rfl⟩ := hw
    simp [String.data_append]
  have hvalid : ¬ (n.data = [] ∨ d.data = [] ∨ t.data = []) := by
    simp [hn1, hd1, ht1]
  rw [postReservations_of_sanitized hn hd ht, if_neg hvalid, hconv]
  exact ⟨(runAction_insert exec st _).1, (runAction_insert exec st _).2.1⟩

/-- The example of C5: the request (`Alice`, `2024-05-01`, `3:00 PM`, `true`)
issues the one insert (`Alice`, `2024-05-01`, `15:00:00`, 1), and on an empty
table it leaves exactly that row; without `is_vip` the flag is 0. -/
theorem post_wellFormed_insert_witness :
    WellFormedTime 3 0 true "3:00 PM" ∧
    (runAction tableExec
      (postReservations ⟨.str "Alice", .str "2024-05-01", .str "3:00 PM", .bool true⟩)
      ⟨[], 1⟩).issued = [.insert "Alice" "2024-05-01" "15:00:00" 1] ∧
    (runAction tableExec
      (postReservations ⟨.str "Alice", .str "2024-05-01", .str "3:00 PM", .bool true⟩)
      ⟨[], 1⟩).store = ⟨[⟨1, "Alice", "2024-05-01", "15:00:00", 1⟩], 2⟩ ∧
    (runAction tableExec
      (postReservations ⟨.str "Alice", .str "2024-05-01", .str "3:00 PM", .undefined⟩)
      ⟨[], 1⟩).issued = [.insert "Alice" "2024-05-01" "15:00:00" 0] := by
  have w : WellFormedTime 3 0 true "3:00 PM" :=
    ⟨by decide, by decide, by decide, "3", "PM", Or.inl (by decide), by decide, by decide⟩
  obtain ⟨t1, -, e1, i1, s1⟩ := post_wellFormed_insert
    ⟨.str "Alice", .str "2024-05-01", .str "3:00 PM", .bool true⟩
    "Alice" "2024-05-01" "3:00 PM" 3 0 true rfl rfl rfl (by decide) (by decide) w
    tableExec ⟨[], 1⟩
  obtain ⟨t2, -, e2, i2, -⟩ := post_wellFormed_insert
    ⟨.str "Alice", .str "2024-05-01", .str "3:00 PM", .undefined⟩
    "Alice" "2024-05-01" "3:00 PM" 3 0 true rfl rfl rfl (by decide) (by decide) w
    tableExec ⟨[], 1⟩
  subst e1 e2
  exact ⟨w, i1, s1, i2⟩

/-- C6: on every time string without a space character,
`convertTo24HourFormat` raises a `TypeError` instead of returning; and a create
request carrying such a time issues no statement and leaves the store
unchanged, whatever its name and date are. -/
theorem convert_without_space_throws (t : String) (hsp : ' ' ∉ t.data) :
    convertTo24HourFormat t = .threw .typeError ∧
    ∀ (body : RequestBody), body.time = .str t →
      ∀ {σ : Type} (exec : σ → Statement → σ × QueryResult) (st : σ),
        (runAction exec (postReservations body) st).issued = [] ∧
        (runAction exec (postReservations body) st).store = st := by
  refine ⟨convert_of_no_space hsp, ?_⟩
  intro body hbody σ exec st
  have ht : sanitizeInput body.time = .ok (replaceTags t) := by
    rw [hbody, sanitizeInput_str]
  have hsp2 : ' ' ∉ (replaceTags t).data := fun e =>
    hsp ((replaceTagsFrom_sublist 0 t.data).subset e)
  cases hn : sanitizeInput body.name with
  | error e =>
    have : postReservations body = .throw e := by simp only [postReservations, hn]
    rw [this]
    exact ⟨rfl, rfl⟩
  | ok n =>
    cases hd : sanitizeInput body.date with
    | error e =>
      have : postReservations body = .throw e := by simp only [postReservations, hn, hd]
      rw [this]
      exact ⟨rfl, rfl⟩
    | ok d =>
      rw [postReservations_of_sanitized hn hd ht, convert_of_no_space hsp2]
      split <;> exact ⟨rfl, rfl⟩

/-- Two instances of C6: `15:00` and `3:00PM` have no space, the conversion
raises a `TypeError` on each, and a request for `Alice` with the time `15:00`
inserts nothing. -/
theorem convert_without_space_throws_witness :
    ' ' ∉ "15:00".data ∧ convertTo24HourFormat "15:00" = .threw .typeError ∧
    ' ' ∉ "3:00PM".data ∧ convertTo24HourFormat "3:00PM" = .threw .typeError ∧
    (runAction tableExec
      (postReservations ⟨.str "Alice", .str "2024-05-01", .str "15:00", .bool true⟩)
      ⟨[], 1⟩).issued = [] :=
  ⟨by decide, (convert_without_space_throws "15:00" (by decide)).1,
   by decide, (convert_without_space_throws "3:00PM" (by decide)).1,
   ((convert_without_space_throws "15:00" (by decide)).2
     ⟨.str "Alice", .str "2024-05-01", .str "15:00", .bool true⟩ rfl tableExec ⟨[], 1⟩).1⟩

/-- C7: `sanitizeInput` returns the empty string for an absent, `null` or empty
argument; it returns unchanged every string that contains no match of the tag
pattern, in particular every string without a `<`, such as `plain`. -/
theorem sanitizeInput_identity :
    sanitizeInput .undefined = .ok "" ∧ sanitizeInput .null = .ok "" ∧
    sanitizeInput (.str "") = .ok "" ∧
    (∀ s : String, ¬ ContainsTag s.data → sanitizeInput (.str s) = .ok s) ∧
    (∀ s : String, '<' ∉ s.data → sanitizeInput (.str s) = .ok s) ∧
    sanitizeInput (.str "plain") = .ok "plain" := by
  have key : ∀ s : String, ¬ ContainsTag s.data → sanitizeInput (.str s) = .ok s := by
    intro s hs
    rw [sanitizeInput_str]
    congr 1
    apply String.ext
    exact replaceTagsFrom_of_no_tag hs
  exact ⟨rfl, rfl, rfl, key, fun s hs => key s (not_containsTag_of_no_open hs), rfl⟩

/-- Two instances of C7: `plain` has no `<`, and `a<>b < c` has no match of the
tag pattern although it has a `<`; both are returned unchanged. -/
theorem sanitizeInput_identity_witness :
    ('<' ∉ "plain".data ∧ sanitizeInput (.str "plain") = .ok "plain") ∧
    (¬ ContainsTag "a<>b < c".data ∧ sanitizeInput (.str "a<>b < c") = .ok "a<>b < c") := by
  have h1 : '<' ∉ "plain".data := by decide
  have h2 : ¬ ContainsTag "a<>b < c".data := by
    rw [containsTag_iff]
    decide
  exact ⟨⟨h1, sanitizeInput_identity.2.2.2.2.1 "plain" h1⟩,
    ⟨h2, sanitizeInput_identity.2.2.2.1 "a<>b < c" h2⟩⟩

/-- C8: whatever the store and its driver are, a create request either issues
no statement (it is then answered 400 or by the error middleware, never with
the success response) or issues exactly one statement and runs it once, without
retry: the handler then responds 500 with `Error adding reservation: ` followed
by the driver message when the driver reports an error, and 201 with
`Reservation added successfully.` when it reports none; so the success response
is sent exactly when a statement was run and the driver reported no error.  The
list request issues the one select and runs it once; it responds 500 with
`Error fetching reservations: ` followed by the driver message on an error, and
`success` with the rows the driver returned exactly when there is no error. -/
theorem storage_result_response {σ : Type} (exec : σ → Statement → σ × QueryResult)
    (st : σ) :
    (∀ body : RequestBody,
      (((runAction exec (postReservations body) st).issued = [] ∧
          (runAction exec (postReservations body) st).store = st ∧
          ((runAction exec (postReservations body) st).completion =
              ⟨400, .message "error" "Name, date, and time are required."⟩ ∨
            (runAction exec (postReservations body) st).completion =
              ⟨500, .message "error" "An unexpected error occurred"⟩)) ∨
        (∃ stmt, (runAction exec (postReservations body) st).issued = [stmt] ∧
          (runAction exec (postReservations body) st).store = (exec st stmt).1 ∧
          (runAction exec (postReservations body) st).completion =
            match (exec st stmt).2 with
            | .error m => ⟨500, .message "error" ("Error adding reservation: " ++ m)⟩
            | .ok _ => ⟨201, .message "success" "Reservation added successfully."⟩)) ∧
      ((runAction exec (postReservations body) st).completion =
          ⟨201, .message "success" "Reservation added successfully."⟩ ↔
        ∃ stmt rows, (runAction exec (postReservations body) st).issued = [stmt] ∧
          (exec st stmt).2 = .ok rows)) ∧
    ((runAction exec getReservations st).issued = [.selectAll] ∧
      (runAction exec getReservations st).store = (exec st .selectAll).1 ∧
      (runAction exec getReservations st).completion =
        (match (exec st .selectAll).2 with
        | .error m => ⟨500, .message "error" ("Error fetching reservations: " ++ m)⟩
        | .ok rows => ⟨200, .data "success" rows⟩) ∧
      ∀ rows, (runAction exec getReservations st).completion = ⟨200, .data "success" rows⟩ ↔
        (exec st .selectAll).2 = .ok rows) := by
  constructor
  · intro body
    rcases postReservations_shape body with h | ⟨e, h⟩ | ⟨stmt, h⟩
    · rw [h]
      refine ⟨Or.inl ⟨rfl, rfl, Or.inl rfl⟩, ?_⟩
      constructor
      · intro hc
        simp [runAction, missingFieldResponse] at hc
      · rintro ⟨stmt, rows, hi, -⟩
        exact absurd hi (by simp [runAction])
    · rw [h]
      refine ⟨Or.inl ⟨rfl, rfl, Or.inr rfl⟩, ?_⟩
      constructor
      · intro hc
        simp [runAction, errorMiddleware] at hc
      · rintro ⟨stmt, rows, hi, -⟩
        exact absurd hi (by simp [runAction])
    · rw [h]
      obtain ⟨hi, hs, hc⟩ := runAction_insert exec st stmt
      refine ⟨Or.inr ⟨stmt, hi, hs, hc⟩, ?_⟩
      rw [hc, hi]
      constructor
      · intro hok
        cases hres : (exec st stmt).2 with
        | error m => simp [hres] at hok
        | ok rows => exact ⟨stmt, rows, rfl, hres⟩
      · rintro ⟨stmt2, rows, hi2, hres⟩
        obtain rfl : stmt = stmt2 := by simpa using hi2
        rw [hres]
  · simp only [getReservations, runAction]
    cases hres : (exec st .selectAll).2 with
    | error m => exact ⟨rfl, rfl, rfl, fun rows => by simp [runAction]⟩
    | ok rows0 => exact ⟨rfl, rfl, rfl, fun rows => by simp [runAction]⟩

/-- Instances of C8 on a table.  When every statement fails with `ECONNRESET`,
the create request for `Alice` issues one insert and is answered 500 with
`Error adding reservation: ECONNRESET`, also when the time is `abc PM`, and the
list request is answered 500 with `Error fetching reservations: ECONNRESET`.
When no statement fails, the create request is answered 201.  A create request
with the time `15:00` issues nothing and is answered by the error middleware. -/
theorem storage_result_response_witness :
    ((runAction (failingExec "ECONNRESET")
        (postReservations ⟨.str "Alice", .str "2024-05-01", .str "3:00 PM", .bool true⟩)
        ⟨[], 1⟩).issued = [.insert "Alice" "2024-05-01" "15:00:00" 1] ∧
      (runAction (failingExec "ECONNRESET")
        (postReservations ⟨.str "Alice", .str "2024-05-01", .str "3:00 PM", .bool true⟩)
        ⟨[], 1⟩).completion =
        ⟨500, .message "error" "Error adding reservation: ECONNRESET"⟩) ∧
    ((runAction (failingExec "ECONNRESET")
        (postReservations ⟨.str "Alice", .str "2024-05-01", .str "abc PM", .bool true⟩)
        ⟨[], 1⟩).issued = [.insertOther "Alice" "2024-05-01" "abc PM" 1] ∧
      (runAction (failingExec "ECONNRESET")
        (postReservations ⟨.str "Alice", .str "2024-05-01", .str "abc PM", .bool true⟩)
        ⟨[], 1⟩).completion =
        ⟨500, .message "error" "Error adding reservation: ECONNRESET"⟩) ∧
    (runAction (failingExec "ECONNRESET") getReservations ⟨[], 1⟩).completion =
      ⟨500, .message "error" "Error fetching reservations: ECONNRESET"⟩ ∧
    (runAction tableExec
      (postReservations ⟨.str "Alice", .str "2024-05-01", .str "3:00 PM", .bool true⟩)
      ⟨[], 1⟩).completion =
      ⟨201, .message "success" "Reservation added successfully."⟩ ∧
    ((runAction tableExec
        (postReservations ⟨.str "Alice", .str "2024-05-01", .str "15:00", .bool true⟩)
        ⟨[], 1⟩).issued = [] ∧
      (runAction tableExec
        (postReservations ⟨.str "Alice", .str "2024-05-01", .str "15:00", .bool true⟩)
        ⟨[], 1⟩).completion = ⟨500, .message "error" "An unexpected error occurred"⟩) := by
  have hg := (storage_result_response (failingExec "ECONNRESET") ⟨[], 1⟩).2
  have ht := ((storage_result_response tableExec ⟨[], 1⟩).1
    ⟨.str "Alice", .str "2024-05-01", .str "3:00 PM", .bool true⟩).2
  exact ⟨⟨rfl, rfl⟩, ⟨rfl, rfl⟩, hg.2.2.1,
    ht.mpr ⟨.insert "Alice" "2024-05-01" "15:00:00" 1, [], rfl, rfl⟩, ⟨rfl, rfl⟩⟩

/-- C9 as the code behaves: a connection failure reported to the callback of
`db.connect` terminates the process with exit code 1, and in every reachable
state of the startup sequence a reported failure means the process has exited
and does not listen.  Listening is not gated on the connection: in a reachable
state where the server listens, the result of `db.connect` is either still
pending or a success. -/
theorem startup_failure_exits (s : Startup) (hr : s.Reachable) :
    (s.conn = .failed → s.phase = .exited 1 ∧ s.listening = false) ∧
    (s.listening = true → s.conn = .pending ∨ s.conn = .connected) ∧
    (∀ (msg : String) (t : Startup), s.step (.connectResult (some msg)) = some t →
      t.phase = .exited 1 ∧ t.conn = .failed ∧ t.listening = false) := by
  have hinv := Startup.inv_of_reachable hr
  refine ⟨?_, ?_, ?_⟩
  · intro hf
    rcases hinv with h | h | h | h
    · rw [h.2.1] at hf; cases hf
    · rw [h.2.1] at hf; cases hf
    · rcases h.2.1 with e | e <;> rw [e] at hf <;> cases hf
    · exact ⟨h.1, h.2.2⟩
  · intro hl
    rcases hinv with h | h | h | h
    · rw [h.2.2] at hl; cases hl
    · rw [h.2.2] at hl; cases hl
    · exact h.2.1
    · rw [h.2.2] at hl; cases hl
  · intro msg t hstep
    simp only [Startup.step] at hstep
    split at hstep
    · simp only [Option.some.injEq] at hstep
      subst hstep
      exact ⟨rfl, rfl, rfl⟩
    · cases hstep

/-- An instance of C9 as amended: after the script has called `db.connect` and
`app.listen` and the callback has received the error `ECONNREFUSED`, the
process has exited with code 1 and does not listen. -/
theorem startup_failure_exits_witness :
    Startup.Reachable ⟨.exited 1, .failed, false, false⟩ ∧
    ((⟨.exited 1, .failed, false, false⟩ : Startup).conn = .failed →
      (⟨.exited 1, .failed, false, false⟩ : Startup).phase = .exited 1 ∧
      (⟨.exited 1, .failed, false, false⟩ : Startup).listening = false) := by
  have hr : Startup.Reachable ⟨.exited 1, .failed, false, false⟩ :=
    ⟨[.scriptCall, .scriptCall, .connectResult (some "ECONNREFUSED")], by decide⟩
  exact ⟨hr, (startup_failure_exits _ hr).1⟩

/-- C9 as stated fails: after the script has called `db.connect` and
`app.listen`, the process is in a reachable state in which the server listens
while `db.connect` has not reported anything yet. -/
theorem startup_listens_before_connected :
    ¬ ∀ s : Startup, s.Reachable → s.listening = true → s.conn = .connected := by
  intro h
  have hr : Startup.Reachable ⟨.eventLoop, .pending, true, false⟩ :=
    ⟨[.scriptCall, .scriptCall], by decide⟩
  exact absurd (h _ hr rfl) (by decide)

/-- C10: on well-formed inputs `convertTo24HourFormat` is one-to-one up to
letter case and a leading zero of the hour: two well-formed texts have the same
result exactly when they denote the same hour, minute and meridiem; and every
`HH:MM:00` with `HH` at most 23 and `MM` at most 59 is the result for some
well-formed text. -/
theorem convertTo24HourFormat_bijective :
    (∀ (h1 m1 : Nat) (pm1 : Bool) (t1 : String) (h2 m2 : Nat) (pm2 : Bool) (t2 : String),
      WellFormedTime h1 m1 pm1 t1 → WellFormedTime h2 m2 pm2 t2 →
      (convertTo24HourFormat t1 = convertTo24HourFormat t2 ↔
        h1 = h2 ∧ m1 = m2 ∧ pm1 = pm2)) ∧
    (∀ H M : Nat, H ≤ 23 → M ≤ 59 → ∃ h m pm t, WellFormedTime h m pm t ∧
      convertTo24HourFormat t = .returned (twoDigits H ++ ":" ++ twoDigits M ++ ":00")) := by
  constructor
  · intro h1 m1 pm1 t1 h2 m2 pm2 t2 w1 w2
    rw [convert_wellFormed w1, convert_wellFormed w2]
    constructor
    · intro he
      obtain ⟨eh, em⟩ := canonical_inj (Outcome.returned.inj he)
      have b1 := hour24_lt h1 pm1 w1.1 w1.2.1
      have b2 := hour24_lt h2 pm2 w2.1 w2.2.1
      have eH := twoDigits_inj (by omega) (by omega) eh
      have eM := twoDigits_inj (by have := w1.2.2.1; omega) (by have := w2.2.2.1; omega) em
      obtain ⟨e1, e2⟩ := hour24_inj w1.1 w1.2.1 w2.1 w2.2.1 eH
      exact ⟨e1, eM, e2⟩
    · rintro ⟨rfl, rfl, rfl⟩
      rfl
  · intro H M hH hM
    have key : ∀ h pm, 1 ≤ h → h ≤ 12 → hour24 h pm = H →
        ∃ h m pm t, WellFormedTime h m pm t ∧
          convertTo24HourFormat t =
            .returned (twoDigits H ++ ":" ++ twoDigits M ++ ":00") := by
      intro h pm a b e
      have w : WellFormedTime h M pm
          (Nat.repr h ++ ":" ++ twoDigits M ++ " " ++ (if pm then "PM" else "AM")) :=
        ⟨a, b, hM, Nat.repr h, if pm then "PM" else "AM", Or.inl rfl,
          by cases pm <;> decide, rfl⟩
      exact ⟨h, M, pm, _, w, by rw [convert_wellFormed w, e]⟩
    by_cases h0 : H = 0
    · exact key 12 false (by omega) (by omega) (by rw [h0]; rfl)
    · by_cases h12 : H < 12
      · exact key H false (by omega) (by omega) (by unfold hour24; simp; omega)
      · by_cases h12e : H = 12
        · exact key 12 true (by omega) (by omega) (by rw [h12e]; rfl)
        · refine key (H - 12) true (by omega) (by omega) ?_
          unfold hour24
          have hlt : H - 12 < 12 := by omega
          simp [hlt]
          omega

/-- Instances of C10: `03:05 pm` and `3:05 PM` denote the same time and have
the same result, and `00:00:00` is the result for a well-formed text. -/
theorem convertTo24HourFormat_bijective_witness :
    (WellFormedTime 3 5 true "03:05 pm" ∧ WellFormedTime 3 5 true "3:05 PM" ∧
      convertTo24HourFormat "03:05 pm" = convertTo24HourFormat "3:05 PM") ∧
    (∃ h m pm t, WellFormedTime h m pm t ∧
      convertTo24HourFormat t = .returned "00:00:00") := by
  have w1 : WellFormedTime 3 5 true "03:05 pm" :=
    ⟨by decide, by decide, by decide, "03", "pm", Or.inr (by decide), by decide, by decide⟩
  have w2 : WellFormedTime 3 5 true "3:05 PM" :=
    ⟨by decide, by decide, by decide, "3", "PM", Or.inl (by decide), by decide, by decide⟩
  exact ⟨⟨w1, w2, (convertTo24HourFormat_bijective.1 3 5 true _ 3 5 true _ w1 w2).mpr
      ⟨rfl, rfl, rfl⟩⟩,
    convertTo24HourFormat_bijective.2 0 0 (by decide) (by decide)⟩

end TempleReservation
